import Mathlib

/-!
Verification of the PBMPM2D particle simulation core (`src/pbmpm/src/main.rs`):
the per-particle integrator `update_particles`, the particle-to-grid scatter
`update_grid`, and the pairwise collision resolver `resolve_collisions`.
The f32 arithmetic of the source is modelled exactly over the reals.
-/

namespace PBMPM

/-- Two-dimensional vector, modelling `glam::Vec2` over the reals. -/
@[ext]
structure Vec2 where
  x : ℝ
  y : ℝ

namespace Vec2

instance : Zero Vec2 := ⟨⟨0, 0⟩⟩

instance : Add Vec2 := ⟨fun a b => ⟨a.x + b.x, a.y + b.y⟩⟩

instance : Sub Vec2 := ⟨fun a b => ⟨a.x - b.x, a.y - b.y⟩⟩

instance : Neg Vec2 := ⟨fun a => ⟨-a.x, -a.y⟩⟩

instance : SMul ℝ Vec2 := ⟨fun c a => ⟨c * a.x, c * a.y⟩⟩

@[simp] theorem zero_x : (0 : Vec2).x = 0 := rfl

@[simp] theorem zero_y : (0 : Vec2).y = 0 := rfl

@[simp] theorem add_x (a b : Vec2) : (a + b).x = a.x + b.x := rfl

@[simp] theorem add_y (a b : Vec2) : (a + b).y = a.y + b.y := rfl

@[simp] theorem sub_x (a b : Vec2) : (a - b).x = a.x - b.x := rfl

@[simp] theorem sub_y (a b : Vec2) : (a - b).y = a.y - b.y := rfl

@[simp] theorem neg_x (a : Vec2) : (-a).x = -a.x := rfl

@[simp] theorem neg_y (a : Vec2) : (-a).y = -a.y := rfl

@[simp] theorem smul_x (c : ℝ) (a : Vec2) : (c • a).x = c * a.x := rfl

@[simp] theorem smul_y (c : ℝ) (a : Vec2) : (c • a).y = c * a.y := rfl

/-- Model of `glam::Vec2::dot`. -/
def dot (a b : Vec2) : ℝ := a.x * b.x + a.y * b.y

/-- Model of `glam::Vec2::length`: the Euclidean norm. -/
noncomputable def length (a : Vec2) : ℝ := Real.sqrt (a.x * a.x + a.y * a.y)

theorem length_nonneg (a : Vec2) : 0 ≤ a.length := Real.sqrt_nonneg _

/-- A vector on the positive x-axis has length equal to its x component. -/
theorem length_xaxis {c : ℝ} (h : 0 ≤ c) : length ⟨c, 0⟩ = c := by
  unfold length
  rw [show c * c + 0 * 0 = c ^ 2 by ring, Real.sqrt_sq h]

@[simp] theorem length_zero : length (0 : Vec2) = 0 := by
  simpa using length_xaxis le_rfl

/-- Model of `glam::Vec2::normalize_or_zero`: the unit vector in the same direction,
or zero when the length is zero. -/
noncomputable def normalizeOrZero (a : Vec2) : Vec2 :=
  if a.length = 0 then 0 else (1 / a.length) • a

/-- Model of `glam::Vec2::clamp_length_max`: rescale the vector onto the disc of the
given radius when its length exceeds it. -/
noncomputable def clampLengthMax (a : Vec2) (m : ℝ) : Vec2 :=
  if a.x * a.x + a.y * a.y > m * m then (m / a.length) • a else a

/-- Rescaling by `clampLengthMax` never makes a zero y component nonzero. -/
theorem clampLengthMax_y_zero (c m : ℝ) : (clampLengthMax ⟨c, 0⟩ m).y = 0 := by
  unfold clampLengthMax
  split <;> simp

end Vec2

/-- Model of `f32::signum` restricted to the values reachable here: 1 for nonnegative
input, -1 for negative input. -/
noncomputable def signumR (x : ℝ) : ℝ := if x < 0 then -1 else 1

theorem abs_signumR_mul {b : ℝ} (hb : 0 ≤ b) (x : ℝ) : |b * signumR x| = b := by
  unfold signumR
  by_cases h : x < 0 <;> simp [h, abs_of_nonneg hb]

/-- One particle step of `update_particles` (src/pbmpm/src/main.rs lines
118-150): gravity, candidate position, per-axis boundary reflection with the
vertical rest deadband, speed clamp, and position commit.  Arguments: time
step, gravity, bounce dampening, window half extents, particle half sizes,
position and velocity.  Returns the committed velocity and position. -/
noncomputable def updateParticle (dt : ℝ) (g : Vec2) (damp W H hx hy : ℝ)
    (p v : Vec2) : Vec2 × Vec2 :=
  let v1 := v + dt • g
  let np := p + dt • v1
  let boundsX := W - hx
  let boundsY := H - hy
  let xres : ℝ × ℝ :=
    if |np.x| > boundsX then (boundsX * signumR np.x, -damp * v1.x)
    else (np.x, v1.x)
  let yres : ℝ × ℝ :=
    if |np.y| > boundsY then
      (boundsY * signumR np.y,
        if |(-damp) * v1.y| < 0.1 then 0 else -damp * v1.y)
    else (np.y, v1.y)
  let maxVel := 2 * max W H
  (Vec2.clampLengthMax ⟨xres.2, yres.2⟩ maxVel, ⟨xres.1, yres.1⟩)

/-- State of one particle as seen by `resolve_collisions`: position, velocity
and the collision radius taken from the sprite half size. -/
structure PState where
  pos : Vec2
  vel : Vec2
  radius : ℝ

/-- The body of the `resolve_collisions` loop (src/pbmpm/src/main.rs lines
222-257) for one unordered pair: overlap test, symmetric positional
correction along the normal, separating-pair check, and the equal-mass
restitution impulse.  A pass of the resolver over exactly two particles
performs exactly this. -/
noncomputable def resolvePair (a b : PState) : PState × PState :=
  let diff := b.pos - a.pos
  let distance := diff.length
  let minDistance := a.radius + b.radius
  if distance < minDistance then
    let normal := diff.normalizeOrZero
    let penetration := minDistance - distance
    let correction := (penetration / 2) • normal
    let posA := a.pos - correction
    let posB := b.pos + correction
    let relativeVelocity := b.vel - a.vel
    let velocityAlongNormal := relativeVelocity.dot normal
    if velocityAlongNormal > 0 then
      ({ a with pos := posA }, { b with pos := posB })
    else
      let restitution : ℝ := 0.8
      let impulseMagnitude := -(1 + restitution) * velocityAlongNormal / 2
      let impulse := impulseMagnitude • normal
      ({ pos := posA, vel := a.vel - impulse, radius := a.radius },
       { pos := posB, vel := b.vel + impulse, radius := b.radius })
  else
    (a, b)

/-- Truncation toward zero, the semantics of the `as i32` cast in
`Grid::world_to_cell`. -/
noncomputable def truncI (x : ℝ) : ℤ := if x < 0 then ⌈x⌉ else ⌊x⌋

/-- Model of `Grid::world_to_cell` (src/pbmpm/src/main.rs lines 66-71): component-wise
truncating cast of position divided by the cell size. -/
noncomputable def world_to_cell (cellSize : ℝ) (p : Vec2) : ℤ × ℤ :=
  (truncI (p.x / cellSize), truncI (p.y / cellSize))

/-- The in-cell fractional offset computed by `update_grid` (line 168):
position over cell size minus the base cell index. -/
noncomputable def cellOffset (cellSize : ℝ) (p : Vec2) : Vec2 :=
  let ci := world_to_cell cellSize p
  ⟨p.x / cellSize - (ci.1 : ℝ), p.y / cellSize - (ci.2 : ℝ)⟩

/-- The per-axis quadratic weight triple of `update_grid` (lines 170-174),
as a function of the signed fractional offset. -/
def quadWeights (f : ℝ) : ℝ × ℝ × ℝ :=
  (0.5 * (0.5 - f) * (0.5 - f), 0.75 - f * f, 0.5 * (0.5 + f) * (0.5 + f))

/-- Index into a weight triple, mirroring `weights[gx]` for `gx` in 0..3. -/
def wIdx (t : ℝ × ℝ × ℝ) : ℕ → ℝ
  | 0 => t.1
  | 1 => t.2.1
  | _ => t.2.2

/-- One grid cell: accumulated velocity and accumulated mass. -/
structure GridCell where
  velocity : Vec2
  mass : ℝ

/-- The default (zero) grid cell inserted by `entry(..).or_insert`. -/
def GridCell.zero : GridCell := ⟨0, 0⟩

/-- The sparse cell map: a cell is present iff the map returns `some`. -/
def GridMap := ℤ × ℤ → Option GridCell

/-- Model of `grid.cells.entry(c).or_insert(default)` followed by the mass and
velocity accumulation of lines 183-184. -/
noncomputable def addToCell (m : GridMap) (c : ℤ × ℤ) (w : ℝ) (v : Vec2) :
    GridMap := fun c2 =>
  if c2 = c then
    let old := (m c).getD GridCell.zero
    some ⟨old.velocity + w • v, old.mass + w * v.length⟩
  else m c2

/-- The loop order of `for gx in 0..3 { for gy in 0..3 { .. } }`. -/
def nbrs : List (ℕ × ℕ) :=
  [(0, 0), (0, 1), (0, 2), (1, 0), (1, 1), (1, 2), (2, 0), (2, 1), (2, 2)]

/-- Scatter of one particle onto its 3×3 neighborhood (lines 165-186). -/
noncomputable def scatterOne (cellSize : ℝ) (m : GridMap) (pv : Vec2 × Vec2) :
    GridMap :=
  let ci := world_to_cell cellSize pv.1
  let off := cellOffset cellSize pv.1
  nbrs.foldl (fun acc gxy =>
    let w := wIdx (quadWeights off.x) gxy.1 * wIdx (quadWeights off.y) gxy.2
    let nc := (ci.1 + (gxy.1 : ℤ) - 1, ci.2 + (gxy.2 : ℤ) - 1)
    addToCell acc nc w pv.2) m

/-- The per-cell pass of lines 189-195: cells with positive mass get their
velocity averaged with the previous frame and gravity added. -/
noncomputable def smoothCells (grav : Vec2) (prevV : ℤ × ℤ → Option Vec2)
    (m : GridMap) : GridMap := fun c =>
  (m c).map fun cell =>
    if cell.mass > 0 then
      { cell with
        velocity := (0.5 : ℝ) • (cell.velocity + (prevV c).getD 0) + grav }
    else cell

/-- The grid resource: cell size, live cells, and the previous-frame
velocity snapshot. -/
structure Grid where
  cellSize : ℝ
  cells : GridMap
  previousVelocities : ℤ × ℤ → Option Vec2

/-- Model of `update_grid` (src/pbmpm/src/main.rs lines 153-196): snapshot previous
velocities, clear, scatter every particle, then smooth and add gravity to
every cell with positive mass. -/
noncomputable def update_grid (g : Grid) (grav : Vec2)
    (particles : List (Vec2 × Vec2)) : Grid :=
  let prevV : ℤ × ℤ → Option Vec2 := fun c => (g.cells c).map GridCell.velocity
  let scattered := particles.foldl (scatterOne g.cellSize) (fun _ => none)
  { cellSize := g.cellSize
    cells := smoothCells grav prevV scattered
    previousVelocities := prevV }

/-- Mass of an optional cell: absent cells count as zero. -/
def cellMass : Option GridCell → ℝ
  | none => 0
  | some cell => cell.mass

/-! Helper lemmas for evaluating the vector operations on literals. -/

namespace Vec2

@[simp] theorem mk_add_mk (a b c d : ℝ) :
    (⟨a, b⟩ : Vec2) + ⟨c, d⟩ = ⟨a + c, b + d⟩ := rfl

@[simp] theorem mk_sub_mk (a b c d : ℝ) :
    (⟨a, b⟩ : Vec2) - ⟨c, d⟩ = ⟨a - c, b - d⟩ := rfl

@[simp] theorem smul_mk (r a b : ℝ) :
    r • (⟨a, b⟩ : Vec2) = ⟨r * a, r * b⟩ := rfl

@[simp] theorem dot_mk (a b c d : ℝ) :
    dot ⟨a, b⟩ ⟨c, d⟩ = a * c + b * d := rfl

@[simp] theorem sub_zero_vec (a : Vec2) : a - 0 = a := by ext <;> simp

@[simp] theorem add_zero_vec (a : Vec2) : a + 0 = a := by ext <;> simp

/-- Length of a vector whose squared length is a known perfect square. -/
theorem length_eval {px py r : ℝ} (h : 0 ≤ r)
    (hsq : px * px + py * py = r * r) : length ⟨px, py⟩ = r := by
  unfold length
  rw [hsq, show r * r = r ^ 2 by ring, Real.sqrt_sq h]

/-- Normalizing a vector on the positive x-axis yields the unit x vector. -/
theorem normalizeOrZero_xaxis {c : ℝ} (h : 0 < c) :
    normalizeOrZero ⟨c, 0⟩ = ⟨1, 0⟩ := by
  unfold normalizeOrZero
  rw [length_xaxis h.le, if_neg (ne_of_gt h)]
  ext <;> field_simp

@[simp] theorem normalizeOrZero_zero : normalizeOrZero (0 : Vec2) = 0 := by
  unfold normalizeOrZero
  rw [if_pos length_zero]

end Vec2

/-! Claim C3: boundary reflection keeps the committed position inside the
window half extents. -/

/-- C3 counterexample: with half sizes only bounded above by the half
extents, a negative half size widens the reflection bounds beyond the
window, so a particle can be committed outside the claimed bound.  Here
W = H = 5, hx = -10 ≤ W, hy = 2.5 ≤ H, and the committed x position is 12. -/
theorem updateParticle_bound_cex :
    (-10 : ℝ) ≤ 5 ∧ (2.5 : ℝ) ≤ 5 ∧
      (updateParticle 1 0 0.8 5 5 (-10) 2.5 ⟨0, 0⟩ ⟨12, 0⟩).2.x = 12 ∧
      ¬ |(updateParticle 1 0 0.8 5 5 (-10) 2.5 ⟨0, 0⟩ ⟨12, 0⟩).2.x| ≤ 5 := by
  refine ⟨by norm_num, by norm_num, ?_, ?_⟩ <;>
    simp only [updateParticle] <;> norm_num [abs_of_nonneg]

/-- C3 (amended): after one integrator tick with half extents (W, H) and
NONNEGATIVE half sizes hx ≤ W, hy ≤ H, the committed position satisfies
the claimed bounds |x| ≤ W and |y| ≤ H, for every pre-tick position and
velocity, time step, gravity and dampening. -/
theorem updateParticle_in_bounds (dt : ℝ) (g : Vec2) (damp W H hx hy : ℝ)
    (p v : Vec2) (hx0 : 0 ≤ hx) (hxW : hx ≤ W) (hy0 : 0 ≤ hy) (hyH : hy ≤ H) :
    |(updateParticle dt g damp W H hx hy p v).2.x| ≤ W ∧
      |(updateParticle dt g damp W H hx hy p v).2.y| ≤ H := by
  have hbX : (0 : ℝ) ≤ W - hx := by linarith
  have hbY : (0 : ℝ) ≤ H - hy := by linarith
  simp only [updateParticle]
  constructor
  · split
    · rw [abs_signumR_mul hbX]; linarith
    · rename_i h
      rw [not_lt] at h
      calc |(p + dt • (v + dt • g)).x| ≤ W - hx := h
        _ ≤ W := by linarith
  · split
    · rw [abs_signumR_mul hbY]; linarith
    · rename_i h
      rw [not_lt] at h
      calc |(p + dt • (v + dt • g)).y| ≤ H - hy := h
        _ ≤ H := by linarith

/-- C3 witness: the amended bound theorem applied at a concrete tick. -/
theorem updateParticle_in_bounds_witness :
    (0 : ℝ) ≤ 2.5 ∧ (2.5 : ℝ) ≤ 5 ∧
      (|(updateParticle 1 ⟨0, 0⟩ 0.8 5 5 2.5 2.5 ⟨0, 0⟩ ⟨100, 0⟩).2.x| ≤ 5 ∧
        |(updateParticle 1 ⟨0, 0⟩ 0.8 5 5 2.5 2.5 ⟨0, 0⟩ ⟨100, 0⟩).2.y| ≤ 5) :=
  ⟨by norm_num, by norm_num,
    updateParticle_in_bounds 1 ⟨0, 0⟩ 0.8 5 5 2.5 2.5 ⟨0, 0⟩ ⟨100, 0⟩
      (by norm_num) (by norm_num) (by norm_num) (by norm_num)⟩

/-! Claim C8: the vertical rest deadband survives the speed clamp. -/

/-- C8: whenever the candidate position triggers a vertical bounce and the
post-dampening vertical velocity is below 0.1 in magnitude, the velocity
committed at the end of the tick has y component exactly zero: the deadband
zero is unchanged by the subsequent speed clamp. -/
theorem updateParticle_deadband (dt : ℝ) (g : Vec2) (damp W H hx hy : ℝ)
    (p v : Vec2)
    (hbounce : |(p + dt • (v + dt • g)).y| > H - hy)
    (hsmall : |(-damp) * (v + dt • g).y| < 0.1) :
    (updateParticle dt g damp W H hx hy p v).1.y = 0 := by
  simp only [updateParticle]
  rw [if_pos hbounce]
  dsimp only
  rw [if_pos hsmall]
  exact Vec2.clampLengthMax_y_zero _ _

/-- C8 witness: the deadband theorem applied at a concrete bounce where the
reflected vertical velocity is 0.04. -/
theorem updateParticle_deadband_witness :
    |((⟨0, 300⟩ : Vec2) + (1 : ℝ) • ((⟨0, 0.05⟩ : Vec2) + (1 : ℝ) • ⟨0, 0⟩)).y|
        > (300 : ℝ) - 2.5 ∧
      |(-(0.8 : ℝ)) * ((⟨0, 0.05⟩ : Vec2) + (1 : ℝ) • (⟨0, 0⟩ : Vec2)).y| < 0.1 ∧
      (updateParticle 1 ⟨0, 0⟩ 0.8 400 300 2.5 2.5 ⟨0, 300⟩ ⟨0, 0.05⟩).1.y = 0 :=
  ⟨by norm_num [abs_of_nonneg], by norm_num [abs_of_nonneg],
    updateParticle_deadband 1 ⟨0, 0⟩ 0.8 400 300 2.5 2.5 ⟨0, 300⟩ ⟨0, 0.05⟩
      (by norm_num [abs_of_nonneg]) (by norm_num [abs_of_nonneg])⟩

/-! Evaluation lemmas for the branches of `resolvePair`. -/

/-- Contact normal of a pair, as computed inside `resolvePair`. -/
noncomputable def normalOf (a b : PState) : Vec2 :=
  (b.pos - a.pos).normalizeOrZero

/-- Positional correction applied to a colliding pair: half the penetration
along the contact normal. -/
noncomputable def corrOf (a b : PState) : Vec2 :=
  ((a.radius + b.radius - (b.pos - a.pos).length) / 2) • normalOf a b

/-- Relative velocity along the contact normal. -/
noncomputable def vanOf (a b : PState) : ℝ :=
  (b.vel - a.vel).dot (normalOf a b)

/-- Impulse applied to a colliding, non-separating pair. -/
noncomputable def impOf (a b : PState) : Vec2 :=
  (-(1 + 0.8) * vanOf a b / 2) • normalOf a b

theorem resolvePair_eval_sep {a b : PState}
    (h1 : (b.pos - a.pos).length < a.radius + b.radius)
    (h2 : vanOf a b > 0) :
    resolvePair a b =
      ({ a with pos := a.pos - corrOf a b }, { b with pos := b.pos + corrOf a b }) := by
  simp only [resolvePair, corrOf, normalOf, vanOf] at *
  rw [if_pos h1, if_pos h2]

theorem resolvePair_eval_impulse {a b : PState}
    (h1 : (b.pos - a.pos).length < a.radius + b.radius)
    (h2 : ¬ vanOf a b > 0) :
    resolvePair a b =
      (⟨a.pos - corrOf a b, a.vel - impOf a b, a.radius⟩,
       ⟨b.pos + corrOf a b, b.vel + impOf a b, b.radius⟩) := by
  simp only [resolvePair, corrOf, normalOf, vanOf, impOf] at *
  rw [if_pos h1, if_neg h2]

theorem resolvePair_eval_skip {a b : PState}
    (h1 : ¬ (b.pos - a.pos).length < a.radius + b.radius) :
    resolvePair a b = (a, b) := by
  simp only [resolvePair]
  rw [if_neg h1]

/-! Claim C5: symmetric separation of a statically overlapping pair. -/

/-- C5: two particles of radius 2.5 with zero velocities whose centers are
3.0 apart along the x axis are pushed, in one resolver pass, to centers
exactly 5.0 apart, each moved by penetration/2 = 1.0 along the contact
normal in opposite directions, symmetrically about the original midpoint. -/
theorem resolvePair_separation (p : Vec2) :
    (resolvePair ⟨p, 0, 2.5⟩ ⟨p + ⟨3, 0⟩, 0, 2.5⟩).1.pos = p - ⟨1, 0⟩ ∧
    (resolvePair ⟨p, 0, 2.5⟩ ⟨p + ⟨3, 0⟩, 0, 2.5⟩).2.pos = (p + ⟨3, 0⟩) + ⟨1, 0⟩ ∧
    ((resolvePair ⟨p, 0, 2.5⟩ ⟨p + ⟨3, 0⟩, 0, 2.5⟩).2.pos -
        (resolvePair ⟨p, 0, 2.5⟩ ⟨p + ⟨3, 0⟩, 0, 2.5⟩).1.pos).length = 5 ∧
    (resolvePair ⟨p, 0, 2.5⟩ ⟨p + ⟨3, 0⟩, 0, 2.5⟩).1.pos +
        (resolvePair ⟨p, 0, 2.5⟩ ⟨p + ⟨3, 0⟩, 0, 2.5⟩).2.pos = p + (p + ⟨3, 0⟩) := by
  have hdiff : ((⟨p + ⟨3, 0⟩, 0, 2.5⟩ : PState).pos - (⟨p, 0, 2.5⟩ : PState).pos)
      = ⟨3, 0⟩ := by ext <;> simp
  have hlen : ((⟨p + ⟨3, 0⟩, 0, 2.5⟩ : PState).pos - (⟨p, 0, 2.5⟩ : PState).pos).length
      = 3 := by rw [hdiff, Vec2.length_eval (by norm_num : (0:ℝ) ≤ 3) (by norm_num)]
  have hnorm : normalOf ⟨p, 0, 2.5⟩ ⟨p + ⟨3, 0⟩, 0, 2.5⟩ = ⟨1, 0⟩ := by
    unfold normalOf
    rw [hdiff, Vec2.normalizeOrZero_xaxis (by norm_num)]
  have hvan : vanOf ⟨p, 0, 2.5⟩ ⟨p + ⟨3, 0⟩, 0, 2.5⟩ = 0 := by
    unfold vanOf
    rw [hnorm]
    dsimp [Vec2.dot]
    norm_num
  have hcorr : corrOf ⟨p, 0, 2.5⟩ ⟨p + ⟨3, 0⟩, 0, 2.5⟩ = ⟨1, 0⟩ := by
    unfold corrOf
    rw [hlen, hnorm]
    ext <;> dsimp <;> norm_num
  rw [resolvePair_eval_impulse (by rw [hlen]; norm_num) (by rw [hvan]; norm_num)]
  dsimp
  rw [hcorr]
  refine ⟨rfl, rfl, ?_, ?_⟩
  · rw [show (p + ⟨3, 0⟩ + ⟨1, 0⟩) - (p - ⟨1, 0⟩) = (⟨5, 0⟩ : Vec2) by
      ext
      · simp; ring
      · simp]
    exact Vec2.length_eval (by norm_num) (by norm_num)
  · ext <;> simp

/-! Claim C6: a separating colliding pair gets the positional correction but
no velocity change. -/

/-- C6: for a colliding pair whose relative velocity along the normal is
nonnegative, one resolver pass leaves both velocities unchanged while still
applying the symmetric positional correction to both positions. -/
theorem resolvePair_separating_no_impulse (a b : PState)
    (h1 : (b.pos - a.pos).length < a.radius + b.radius)
    (h2 : 0 ≤ vanOf a b) :
    (resolvePair a b).1.vel = a.vel ∧ (resolvePair a b).2.vel = b.vel ∧
    (resolvePair a b).1.pos = a.pos - corrOf a b ∧
    (resolvePair a b).2.pos = b.pos + corrOf a b := by
  rcases lt_or_eq_of_le h2 with hgt | heq
  · rw [resolvePair_eval_sep h1 hgt]
    exact ⟨rfl, rfl, rfl, rfl⟩
  · have himp : impOf a b = 0 := by
      unfold impOf
      rw [← heq]
      ext <;> simp
    rw [resolvePair_eval_impulse h1 (by rw [← heq]; exact lt_irrefl 0)]
    dsimp
    rw [himp]
    simp

/-- C6 witness: the theorem applied to an overlapping pair moving apart
along the contact normal. -/
theorem resolvePair_separating_no_impulse_witness :
    (((⟨⟨3, 0⟩, ⟨1, 0⟩, 2.5⟩ : PState).pos - (⟨⟨0, 0⟩, ⟨0, 0⟩, 2.5⟩ : PState).pos).length
        < (⟨⟨0, 0⟩, ⟨0, 0⟩, 2.5⟩ : PState).radius + (⟨⟨3, 0⟩, ⟨1, 0⟩, 2.5⟩ : PState).radius) ∧
    (0 ≤ vanOf ⟨⟨0, 0⟩, ⟨0, 0⟩, 2.5⟩ ⟨⟨3, 0⟩, ⟨1, 0⟩, 2.5⟩) ∧
    ((resolvePair ⟨⟨0, 0⟩, ⟨0, 0⟩, 2.5⟩ ⟨⟨3, 0⟩, ⟨1, 0⟩, 2.5⟩).1.vel
        = (⟨⟨0, 0⟩, ⟨0, 0⟩, 2.5⟩ : PState).vel ∧
      (resolvePair ⟨⟨0, 0⟩, ⟨0, 0⟩, 2.5⟩ ⟨⟨3, 0⟩, ⟨1, 0⟩, 2.5⟩).2.vel
        = (⟨⟨3, 0⟩, ⟨1, 0⟩, 2.5⟩ : PState).vel ∧
      (resolvePair ⟨⟨0, 0⟩, ⟨0, 0⟩, 2.5⟩ ⟨⟨3, 0⟩, ⟨1, 0⟩, 2.5⟩).1.pos
        = (⟨⟨0, 0⟩, ⟨0, 0⟩, 2.5⟩ : PState).pos
            - corrOf ⟨⟨0, 0⟩, ⟨0, 0⟩, 2.5⟩ ⟨⟨3, 0⟩, ⟨1, 0⟩, 2.5⟩ ∧
      (resolvePair ⟨⟨0, 0⟩, ⟨0, 0⟩, 2.5⟩ ⟨⟨3, 0⟩, ⟨1, 0⟩, 2.5⟩).2.pos
        = (⟨⟨3, 0⟩, ⟨1, 0⟩, 2.5⟩ : PState).pos
            + corrOf ⟨⟨0, 0⟩, ⟨0, 0⟩, 2.5⟩ ⟨⟨3, 0⟩, ⟨1, 0⟩, 2.5⟩) := by
  have hdiff : ((⟨⟨3, 0⟩, ⟨1, 0⟩, 2.5⟩ : PState).pos - (⟨⟨0, 0⟩, ⟨0, 0⟩, 2.5⟩ : PState).pos)
      = ⟨3, 0⟩ := by ext <;> norm_num
  have hlen : ((⟨⟨3, 0⟩, ⟨1, 0⟩, 2.5⟩ : PState).pos - (⟨⟨0, 0⟩, ⟨0, 0⟩, 2.5⟩ : PState).pos).length
      = 3 := by rw [hdiff, Vec2.length_eval (by norm_num : (0:ℝ) ≤ 3) (by norm_num)]
  have h1 : ((⟨⟨3, 0⟩, ⟨1, 0⟩, 2.5⟩ : PState).pos - (⟨⟨0, 0⟩, ⟨0, 0⟩, 2.5⟩ : PState).pos).length
      < (⟨⟨0, 0⟩, ⟨0, 0⟩, 2.5⟩ : PState).radius + (⟨⟨3, 0⟩, ⟨1, 0⟩, 2.5⟩ : PState).radius := by
    rw [hlen]; norm_num
  have h2 : 0 ≤ vanOf ⟨⟨0, 0⟩, ⟨0, 0⟩, 2.5⟩ ⟨⟨3, 0⟩, ⟨1, 0⟩, 2.5⟩ := by
    unfold vanOf normalOf
    rw [hdiff, Vec2.normalizeOrZero_xaxis (by norm_num)]
    dsimp [Vec2.dot]
    norm_num
  exact ⟨h1, h2, resolvePair_separating_no_impulse _ _ h1 h2⟩

/-! Claim C7: an exactly touching equal-and-opposite pair. -/

/-- C7: a pair whose center distance equals the combined radius, with
velocities (+5,0) and (-5,0), satisfies vA = -vB after one resolver pass.
The overlap test is strict, so an exactly touching pair is skipped and the
already opposite velocities are unchanged. -/
theorem resolvePair_touching_opposite (a b : PState)
    (htouch : (b.pos - a.pos).length = a.radius + b.radius)
    (hva : a.vel = ⟨5, 0⟩) (hvb : b.vel = ⟨-5, 0⟩) :
    (resolvePair a b).1.vel = -(resolvePair a b).2.vel := by
  rw [resolvePair_eval_skip (by rw [htouch]; exact lt_irrefl _)]
  dsimp
  rw [hva, hvb]
  ext <;> norm_num

/-- C7 witness: the theorem applied to particles of radius 2.5 touching at
distance 5 with velocities (+5,0) and (-5,0). -/
theorem resolvePair_touching_opposite_witness :
    (((⟨⟨5, 0⟩, ⟨-5, 0⟩, 2.5⟩ : PState).pos - (⟨⟨0, 0⟩, ⟨5, 0⟩, 2.5⟩ : PState).pos).length
        = (⟨⟨0, 0⟩, ⟨5, 0⟩, 2.5⟩ : PState).radius + (⟨⟨5, 0⟩, ⟨-5, 0⟩, 2.5⟩ : PState).radius) ∧
    (⟨⟨0, 0⟩, ⟨5, 0⟩, 2.5⟩ : PState).vel = ⟨5, 0⟩ ∧
    (⟨⟨5, 0⟩, ⟨-5, 0⟩, 2.5⟩ : PState).vel = ⟨-5, 0⟩ ∧
    (resolvePair ⟨⟨0, 0⟩, ⟨5, 0⟩, 2.5⟩ ⟨⟨5, 0⟩, ⟨-5, 0⟩, 2.5⟩).1.vel
      = -(resolvePair ⟨⟨0, 0⟩, ⟨5, 0⟩, 2.5⟩ ⟨⟨5, 0⟩, ⟨-5, 0⟩, 2.5⟩).2.vel := by
  have htouch : ((⟨⟨5, 0⟩, ⟨-5, 0⟩, 2.5⟩ : PState).pos - (⟨⟨0, 0⟩, ⟨5, 0⟩, 2.5⟩ : PState).pos).length
      = (⟨⟨0, 0⟩, ⟨5, 0⟩, 2.5⟩ : PState).radius + (⟨⟨5, 0⟩, ⟨-5, 0⟩, 2.5⟩ : PState).radius := by
    rw [show ((⟨⟨5, 0⟩, ⟨-5, 0⟩, 2.5⟩ : PState).pos - (⟨⟨0, 0⟩, ⟨5, 0⟩, 2.5⟩ : PState).pos)
        = (⟨5, 0⟩ : Vec2) by ext <;> norm_num]
    rw [Vec2.length_eval (by norm_num : (0:ℝ) ≤ 5) (by norm_num)]
    norm_num
  exact ⟨htouch, rfl, rfl,
    resolvePair_touching_opposite _ _ htouch rfl rfl⟩

/-! Claim C9: non-overlapping pairs are untouched. -/

/-- C9: a pair whose center distance is at least the combined radius is left
completely unchanged by one resolver pass. -/
theorem resolvePair_no_overlap (a b : PState)
    (h : a.radius + b.radius ≤ (b.pos - a.pos).length) :
    resolvePair a b = (a, b) :=
  resolvePair_eval_skip (not_lt.mpr h)

/-- C9 witness: the theorem applied to particles of radius 2.5 at distance
exactly 5. -/
theorem resolvePair_no_overlap_witness :
    ((⟨⟨0, 0⟩, ⟨0, 0⟩, 2.5⟩ : PState).radius + (⟨⟨5, 0⟩, ⟨0, 0⟩, 2.5⟩ : PState).radius
        ≤ ((⟨⟨5, 0⟩, ⟨0, 0⟩, 2.5⟩ : PState).pos - (⟨⟨0, 0⟩, ⟨0, 0⟩, 2.5⟩ : PState).pos).length) ∧
    resolvePair ⟨⟨0, 0⟩, ⟨0, 0⟩, 2.5⟩ ⟨⟨5, 0⟩, ⟨0, 0⟩, 2.5⟩
      = (⟨⟨0, 0⟩, ⟨0, 0⟩, 2.5⟩, ⟨⟨5, 0⟩, ⟨0, 0⟩, 2.5⟩) := by
  have h : (⟨⟨0, 0⟩, ⟨0, 0⟩, 2.5⟩ : PState).radius + (⟨⟨5, 0⟩, ⟨0, 0⟩, 2.5⟩ : PState).radius
      ≤ ((⟨⟨5, 0⟩, ⟨0, 0⟩, 2.5⟩ : PState).pos - (⟨⟨0, 0⟩, ⟨0, 0⟩, 2.5⟩ : PState).pos).length := by
    rw [show ((⟨⟨5, 0⟩, ⟨0, 0⟩, 2.5⟩ : PState).pos - (⟨⟨0, 0⟩, ⟨0, 0⟩, 2.5⟩ : PState).pos)
        = (⟨5, 0⟩ : Vec2) by ext <;> norm_num]
    rw [Vec2.length_eval (by norm_num : (0:ℝ) ≤ 5) (by norm_num)]
    norm_num
  exact ⟨h, resolvePair_no_overlap _ _ h⟩

/-! Claim C10: coincident centers are a safe no-op. -/

/-- C10: for a pair with exactly coincident centers the computed contact
normal is the zero vector, so the positional correction and the impulse
vanish and one resolver pass changes neither particle, whatever the radii. -/
theorem resolvePair_coincident (a b : PState) (h : a.pos = b.pos) :
    normalOf a b = 0 ∧ resolvePair a b = (a, b) := by
  have hdiff : b.pos - a.pos = 0 := by rw [h]; ext <;> simp
  have hnorm : normalOf a b = 0 := by
    unfold normalOf
    rw [hdiff]
    exact Vec2.normalizeOrZero_zero
  refine ⟨hnorm, ?_⟩
  by_cases hlt : (b.pos - a.pos).length < a.radius + b.radius
  · have hvan : vanOf a b = 0 := by
      unfold vanOf
      rw [hnorm]
      dsimp [Vec2.dot]
      simp
    have hcorr : corrOf a b = 0 := by
      unfold corrOf
      rw [hnorm]
      ext <;> simp
    have himp : impOf a b = 0 := by
      unfold impOf
      rw [hnorm]
      ext <;> simp
    rw [resolvePair_eval_impulse hlt (by rw [hvan]; exact lt_irrefl 0)]
    rw [hcorr, himp]
    cases a
    cases b
    simp
  · exact resolvePair_eval_skip hlt

/-- C10 witness: the theorem applied to two coincident particles with
different velocities and radii. -/
theorem resolvePair_coincident_witness :
    ((⟨⟨1, 2⟩, ⟨3, 4⟩, 2.5⟩ : PState).pos = (⟨⟨1, 2⟩, ⟨0, 0⟩, 1.5⟩ : PState).pos) ∧
    (normalOf ⟨⟨1, 2⟩, ⟨3, 4⟩, 2.5⟩ ⟨⟨1, 2⟩, ⟨0, 0⟩, 1.5⟩ = 0 ∧
      resolvePair ⟨⟨1, 2⟩, ⟨3, 4⟩, 2.5⟩ ⟨⟨1, 2⟩, ⟨0, 0⟩, 1.5⟩
        = (⟨⟨1, 2⟩, ⟨3, 4⟩, 2.5⟩, ⟨⟨1, 2⟩, ⟨0, 0⟩, 1.5⟩)) :=
  ⟨rfl, resolvePair_coincident _ _ rfl⟩

/-! Claim C4: the quadratic weight triple sums to one and is nonnegative on
the centered offset range. -/

/-- Every entry of the weight triple is nonnegative when the offset lies in
the centered range [-1/2, 1/2]. -/
theorem quadWeights_entry_nonneg {f : ℝ} (h1 : -(1/2) ≤ f) (h2 : f ≤ 1/2) :
    ∀ i, 0 ≤ wIdx (quadWeights f) i := by
  intro i
  match i with
  | 0 => dsimp [wIdx, quadWeights]; nlinarith [sq_nonneg (0.5 - f)]
  | 1 => dsimp [wIdx, quadWeights]; nlinarith
  | (n + 2) =>
    show (0 : ℝ) ≤ 0.5 * (0.5 + f) * (0.5 + f)
    nlinarith [sq_nonneg (0.5 + f)]

/-- C4: for every signed fractional offset the three weights computed by the
grid transfer sum to exactly 1, and for every offset in [-1/2, 1/2] all
three are nonnegative. -/
theorem quadWeights_sum_one_nonneg (f : ℝ) :
    wIdx (quadWeights f) 0 + wIdx (quadWeights f) 1 + wIdx (quadWeights f) 2 = 1 ∧
    (-(1/2) ≤ f → f ≤ 1/2 →
      0 ≤ wIdx (quadWeights f) 0 ∧ 0 ≤ wIdx (quadWeights f) 1 ∧
        0 ≤ wIdx (quadWeights f) 2) := by
  constructor
  · dsimp [wIdx, quadWeights]
    ring
  · intro h1 h2
    exact ⟨quadWeights_entry_nonneg h1 h2 0, quadWeights_entry_nonneg h1 h2 1,
      quadWeights_entry_nonneg h1 h2 2⟩

/-- C4 witness: the weight theorem applied at the offset 1/4. -/
theorem quadWeights_sum_one_nonneg_witness :
    (-(1/2) : ℝ) ≤ 1/4 ∧ (1/4 : ℝ) ≤ 1/2 ∧
    (wIdx (quadWeights (1/4)) 0 + wIdx (quadWeights (1/4)) 1
        + wIdx (quadWeights (1/4)) 2 = 1) ∧
    (0 ≤ wIdx (quadWeights (1/4)) 0 ∧ 0 ≤ wIdx (quadWeights (1/4)) 1 ∧
      0 ≤ wIdx (quadWeights (1/4)) 2) :=
  ⟨by norm_num, by norm_num, (quadWeights_sum_one_nonneg (1/4)).1,
    (quadWeights_sum_one_nonneg (1/4)).2 (by norm_num) (by norm_num)⟩

/-! Claim C1: the base cell index is a truncation, not a floor. -/

/-- C1 counterexample: at position (-0.3, 0) with cell size 1 the code
computes base cell (0, 0) by truncation, while the componentwise
mathematical floor is (-1, 0). -/
theorem world_to_cell_not_floor_cex :
    world_to_cell 1 ⟨-(3/10), 0⟩ = (0, 0) ∧
    (⌊(-(3/10) : ℝ) / 1⌋, ⌊((0 : ℝ)) / 1⌋) = (-1, 0) ∧
    world_to_cell 1 ⟨-(3/10), 0⟩ ≠ (⌊(-(3/10) : ℝ) / 1⌋, ⌊((0 : ℝ)) / 1⌋) := by
  have hceil : (⌈(-(3/10) : ℝ) / 1⌉ : ℤ) = 0 := by
    rw [Int.ceil_eq_iff]
    norm_num
  have hfloor : (⌊(-(3/10) : ℝ) / 1⌋ : ℤ) = -1 := by
    rw [Int.floor_eq_iff]
    norm_num
  have hzero : (⌊((0 : ℝ)) / 1⌋ : ℤ) = 0 := by norm_num
  have hcode : world_to_cell 1 ⟨-(3/10), 0⟩ = (0, 0) := by
    unfold world_to_cell truncI
    dsimp
    rw [if_pos (by norm_num : (-(3/10) : ℝ) / 1 < 0),
      if_neg (by norm_num : ¬ ((0 : ℝ) / 1 < 0))]
    rw [hceil, hzero]
    rfl
  refine ⟨hcode, by rw [hfloor, hzero], ?_⟩
  rw [hcode, hfloor, hzero]
  decide

/-- C1 (amended): the grid transfer computes the base cell index by
truncation toward zero of position over cell size; for nonnegative
coordinates this agrees with the componentwise mathematical floor. -/
theorem world_to_cell_floor_of_nonneg (s : ℝ) (p : Vec2) (hs : 0 < s)
    (hpx : 0 ≤ p.x) (hpy : 0 ≤ p.y) :
    world_to_cell s p = (⌊p.x / s⌋, ⌊p.y / s⌋) := by
  unfold world_to_cell truncI
  rw [if_neg (not_lt.mpr (div_nonneg hpx hs.le)),
    if_neg (not_lt.mpr (div_nonneg hpy hs.le))]

/-- C1 witness: the amended theorem applied at cell size 1 and position
(0.3, 2). -/
theorem world_to_cell_floor_of_nonneg_witness :
    (0 : ℝ) < 1 ∧ (0 : ℝ) ≤ (⟨3/10, 2⟩ : Vec2).x ∧ (0 : ℝ) ≤ (⟨3/10, 2⟩ : Vec2).y ∧
    world_to_cell 1 ⟨3/10, 2⟩ = (⌊((3/10 : ℝ)) / 1⌋, ⌊((2 : ℝ)) / 1⌋) :=
  ⟨by norm_num, by norm_num, by norm_num,
    world_to_cell_floor_of_nonneg 1 ⟨3/10, 2⟩ (by norm_num) (by norm_num)
      (by norm_num)⟩

/-! Claim C2: accumulated mass of the grid cells. -/

/-- Every cell of the map, present or absent, has nonnegative mass. -/
def massOK (m : GridMap) : Prop := ∀ c, 0 ≤ cellMass (m c)

theorem addToCell_massOK {m : GridMap} (hm : massOK m) {w : ℝ} (hw : 0 ≤ w)
    (c : ℤ × ℤ) (v : Vec2) : massOK (addToCell m c w v) := by
  intro c2
  unfold addToCell
  dsimp only
  split
  · have hold : 0 ≤ ((m c).getD GridCell.zero).mass := by
      have h := hm c
      cases hmc : m c
      · simp [GridCell.zero]
      · rw [hmc] at h
        exact h
    have hwl : 0 ≤ w * v.length := mul_nonneg hw (Vec2.length_nonneg v)
    show 0 ≤ ((m c).getD GridCell.zero).mass + w * v.length
    linarith
  · exact hm c2

theorem foldl_addToCell_massOK (f : ℕ × ℕ → ℤ × ℤ) (w : ℕ × ℕ → ℝ)
    (hw : ∀ g, 0 ≤ w g) (v : Vec2) :
    ∀ (L : List (ℕ × ℕ)) (m : GridMap), massOK m →
      massOK (L.foldl (fun acc g => addToCell acc (f g) (w g) v) m)
  | [], _, hm => hm
  | g :: L, _, hm =>
    foldl_addToCell_massOK f w hw v L _ (addToCell_massOK hm (hw g) (f g) v)

theorem scatterOne_massOK {s : ℝ} {m : GridMap} (hm : massOK m)
    (pv : Vec2 × Vec2)
    (hax : |(cellOffset s pv.1).x| ≤ 1/2) (hay : |(cellOffset s pv.1).y| ≤ 1/2) :
    massOK (scatterOne s m pv) := by
  have hwx := quadWeights_entry_nonneg (abs_le.mp hax).1 (abs_le.mp hax).2
  have hwy := quadWeights_entry_nonneg (abs_le.mp hay).1 (abs_le.mp hay).2
  unfold scatterOne
  exact foldl_addToCell_massOK
    (fun g => ((world_to_cell s pv.1).1 + (g.1 : ℤ) - 1,
      (world_to_cell s pv.1).2 + (g.2 : ℤ) - 1))
    (fun g => wIdx (quadWeights (cellOffset s pv.1).x) g.1 *
      wIdx (quadWeights (cellOffset s pv.1).y) g.2)
    (fun g => mul_nonneg (hwx g.1) (hwy g.2)) pv.2 nbrs m hm

theorem scatterAll_massOK (s : ℝ) :
    ∀ (ps : List (Vec2 × Vec2)) (m : GridMap), massOK m →
      (∀ pv ∈ ps, |(cellOffset s pv.1).x| ≤ 1/2 ∧ |(cellOffset s pv.1).y| ≤ 1/2) →
      massOK (ps.foldl (scatterOne s) m)
  | [], _, hm, _ => hm
  | pv :: ps, _, hm, hoff =>
    scatterAll_massOK s ps _
      (scatterOne_massOK hm pv (hoff pv (List.mem_cons_self pv ps)).1
        (hoff pv (List.mem_cons_self pv ps)).2)
      (fun q hq => hoff q (List.mem_cons_of_mem pv hq))

/-- The smoothing pass changes only velocities: every cell keeps its mass
and its presence. -/
theorem smoothCells_cellMass (grav : Vec2) (prevV : ℤ × ℤ → Option Vec2)
    (m : GridMap) (c : ℤ × ℤ) :
    cellMass (smoothCells grav prevV m c) = cellMass (m c) := by
  unfold smoothCells
  cases hmc : m c
  · rfl
  · dsimp [Option.map, cellMass]
    split <;> rfl

/-- C2 (amended): after any run of the grid transfer over particles whose
fractional cell offsets all lie in the centered range [-1/2, 1/2] on both
axes, every grid cell, present or absent, has accumulated mass ≥ 0.  (The
unrestricted claim is false: truncation puts offsets anywhere in (-1, 1),
where the center weight can be negative; see the counterexample.) -/
theorem update_grid_mass_nonneg (g : Grid) (grav : Vec2)
    (ps : List (Vec2 × Vec2))
    (hoff : ∀ pv ∈ ps, |(cellOffset g.cellSize pv.1).x| ≤ 1/2 ∧
      |(cellOffset g.cellSize pv.1).y| ≤ 1/2) :
    ∀ c, 0 ≤ cellMass ((update_grid g grav ps).cells c) := by
  intro c
  have h0 : massOK (fun _ => none) := fun _ => le_refl 0
  have hs := scatterAll_massOK g.cellSize ps _ h0 hoff
  simp only [update_grid]
  rw [smoothCells_cellMass]
  exact hs c

/-- C2 witness: the amended theorem applied to one particle sitting exactly
at the origin of a fresh grid with cell size 20, inspected at cell (0, 0). -/
theorem update_grid_mass_nonneg_witness :
    (∀ pv ∈ [((⟨0, 0⟩ : Vec2), (⟨0, 0⟩ : Vec2))],
      |(cellOffset (20 : ℝ) pv.1).x| ≤ 1/2 ∧ |(cellOffset (20 : ℝ) pv.1).y| ≤ 1/2) ∧
    0 ≤ cellMass ((update_grid ⟨20, fun _ => none, fun _ => none⟩ ⟨0, -9.8⟩
      [(⟨0, 0⟩, ⟨0, 0⟩)]).cells (0, 0)) := by
  have hoff : ∀ pv ∈ [((⟨0, 0⟩ : Vec2), (⟨0, 0⟩ : Vec2))],
      |(cellOffset (20 : ℝ) pv.1).x| ≤ 1/2 ∧ |(cellOffset (20 : ℝ) pv.1).y| ≤ 1/2 := by
    intro pv hpv
    rw [List.mem_singleton] at hpv
    subst hpv
    have hco : cellOffset (20 : ℝ) (⟨0, 0⟩ : Vec2) = ⟨0, 0⟩ := by
      unfold cellOffset world_to_cell truncI
      dsimp
      rw [if_neg (by norm_num : ¬ ((0 : ℝ) / 20 < 0))]
      norm_num
    dsimp only
    rw [hco]
    norm_num
  exact ⟨hoff, update_grid_mass_nonneg ⟨20, fun _ => none, fun _ => none⟩
    ⟨0, -9.8⟩ [(⟨0, 0⟩, ⟨0, 0⟩)] hoff (0, 0)⟩

/-- C2 counterexample: on a fresh grid with cell size 20, a single particle
at (18, 0) with velocity (1, 0) has fractional offset 0.9, whose center
weight 0.75 - 0.81 = -0.06 is negative, so after one run of `update_grid`
the cell (0, 0) is present with accumulated mass -9/200 < 0. -/
theorem update_grid_mass_neg_cex :
    cellMass ((update_grid ⟨20, fun _ => none, fun _ => none⟩ ⟨0, -9.8⟩
      [(⟨18, 0⟩, ⟨1, 0⟩)]).cells (0, 0)) < 0 := by
  have hfl : (⌊(18 : ℝ) / 20⌋ : ℤ) = 0 := by
    rw [Int.floor_eq_iff]
    norm_num
  have hci : world_to_cell 20 (⟨18, 0⟩ : Vec2) = (0, 0) := by
    unfold world_to_cell truncI
    dsimp
    rw [if_neg (by norm_num : ¬ ((18 : ℝ) / 20 < 0)),
      if_neg (by norm_num : ¬ ((0 : ℝ) / 20 < 0))]
    rw [hfl]
    norm_num
  have hoff : cellOffset 20 (⟨18, 0⟩ : Vec2) = ⟨9/10, 0⟩ := by
    unfold cellOffset
    dsimp
    rw [hci]
    ext <;> dsimp <;> norm_num
  simp only [update_grid]
  rw [smoothCells_cellMass]
  simp only [List.foldl, scatterOne, hci, hoff, nbrs]
  simp only [addToCell, Prod.mk.injEq]
  norm_num
  rw [Vec2.length_xaxis (by norm_num : (0 : ℝ) ≤ 1)]
  norm_num [cellMass, GridCell.zero, wIdx, quadWeights]

end PBMPM
